import Mathlib

/-!
# Verification of the waterline adapter facade and lock manager

A shallow embedding, in Lean 4, of the core of the storage-abstraction layer:
the criteria normalizer, the adapter facade operations (`find`, `findAll`,
`create`, `alter`), and the app-level lock manager (`transaction`,
`acquireLock`, `releaseLock`, `getNextLock`).

JavaScript dynamic values are modelled by the inductive type `JsVal`
(null, undefined, booleans, numbers, strings and objects; numbers are
modelled as integers, which covers every value the claims exercise; arrays
and functions are outside the model's value universe).  JavaScript objects
are ordered key/value association lists (`JsEntries`), matching
insertion-order iteration of `for ... in` and `_.each`.  Runtime
exceptions (TypeError on a property access of `undefined`, ReferenceError
on reading an undeclared variable, and explicit `throw`) are modelled with
`Except`: a `.error` outcome means the function threw and its continuation
(in particular any pending callback) never ran.
-/

mutual
/-- A JavaScript value, as used by the facade's criteria and attribute
processing.  Numbers are modelled as `Int`. -/
inductive JsVal where
  | vnull : JsVal
  | vundef : JsVal
  | vbool : Bool → JsVal
  | vnum : Int → JsVal
  | vstr : String → JsVal
  | vobj : JsEntries → JsVal
deriving DecidableEq, Repr

/-- The ordered field list of a JavaScript object. -/
inductive JsEntries where
  | nil : JsEntries
  | cons : String → JsVal → JsEntries → JsEntries
deriving DecidableEq, Repr
end

open JsVal JsEntries

/-- Build an object's entry list from a Lean list (notation helper for
concrete inputs). -/
def entriesOf : List (String × JsVal) → JsEntries
  | [] => .nil
  | (k, v) :: t => .cons k v (entriesOf t)

/-- Build an object value from a Lean list of fields. -/
def jobj (l : List (String × JsVal)) : JsVal := vobj (entriesOf l)

/-- JavaScript truthiness: `null`, `undefined`, `false`, `0` and `""` are
falsy, everything else (including every object) is truthy. -/
def JsVal.truthy : JsVal → Bool
  | vnull => false
  | vundef => false
  | vbool b => b
  | vnum n => n != 0
  | vstr s => s != ""
  | vobj _ => true

/-- Underscore's `_.isObject` (`obj === Object(obj)`): true exactly for
objects in our value universe. -/
def JsVal.isObj : JsVal → Bool
  | vobj _ => true
  | _ => false

/-- `_.isString`. -/
def JsVal.isStr : JsVal → Bool
  | vstr _ => true
  | _ => false

/-- `_.isFinite`-style number test: on our integer-valued number model
every number is finite and non-`NaN`. -/
def JsVal.isNum : JsVal → Bool
  | vnum _ => true
  | _ => false

/-- First-match lookup in an object's entry list (`none` plays the role of
the absent-key `undefined`). -/
def JsEntries.lookup : JsEntries → String → Option JsVal
  | .nil, _ => none
  | .cons k' v t, k => if k' = k then some v else t.lookup k

/-- `obj[k]` as a JavaScript value: reading an absent key yields `undefined`. -/
def objGet (v : JsVal) (k : String) : JsVal :=
  match v with
  | vobj l => (l.lookup k).getD vundef
  | _ => vundef

/-- `obj[k] = x` on an entry list: update the first occurrence in place
(keeping its position, as JavaScript does for existing keys), else append. -/
def JsEntries.set : JsEntries → String → JsVal → JsEntries
  | .nil, k, x => .cons k x .nil
  | .cons k' v t, k, x =>
    if k' = k then .cons k x t else .cons k' v (t.set k x)

/-- `obj[k] = x` as a value transformer.  Assignments to primitives are
silent no-ops (non-strict mode). -/
def objSet (v : JsVal) (k : String) (x : JsVal) : JsVal :=
  match v with
  | vobj l => vobj (l.set k x)
  | _ => v

/-- JavaScript's string-to-number coercion, restricted to the integer
numerals the model supports: surrounding whitespace is trimmed, the empty
string coerces to `0`, an optional minus sign and decimal digits parse as
an integer; everything else is `NaN` (`none`). -/
def strToNum (s : String) : Option Int :=
  let t := s.trim
  if t = "" then some 0
  else if t.startsWith "-" then
    (t.drop 1).toNat? |>.map (fun n => -(n : Int))
  else
    t.toNat? |>.map (fun n => (n : Int))

/-- `+v`, JavaScript number coercion (`none` = `NaN`). -/
def toNumber : JsVal → Option Int
  | vnull => some 0
  | vundef => none
  | vbool b => some (if b then 1 else 0)
  | vnum n => some n
  | vstr s => strToNum s
  | vobj _ => none

/-- A modelled runtime failure: an explicit `throw`, a TypeError from a
property access on `undefined`/`null`, or a ReferenceError from reading an
undeclared identifier. -/
inductive RtErr where
  | thrown : JsVal → RtErr
  | typeError : RtErr
  | referenceError : RtErr
deriving DecidableEq, Repr

/-- Render a value into an error-message string the way `'...' + v`
does (only the cases the messages can actually meet matter). -/
def jsToString : JsVal → String
  | vnull => "null"
  | vundef => "undefined"
  | vbool b => if b then "true" else "false"
  | vnum n => toString n
  | vstr s => s
  | vobj _ => "[object Object]"

/-! ## The criteria normalizer (source: `normalizeCriteria`, lines 497-553)

The function body is translated stage by stage, in source order:
the falsy early return, the undefined-key strip, the numeric conversion,
the non-object error string, the operational-key wrap, the `where`-value
numeric rewrite, and the sort normalization. -/

/-- Delete the entries whose value is `undefined` (stage 2, lines 503-505). -/
def JsEntries.stripUndef : JsEntries → JsEntries
  | .nil => .nil
  | .cons k v t => if v = vundef then t.stripUndef else .cons k v t.stripUndef

/-- Stage 2 (lines 503-505): delete the keys of `criteria` whose value is
`undefined`.  `_.each` over a primitive iterates no deletable keys, so
non-objects pass through unchanged. -/
def stripUndefined (v : JsVal) : JsVal :=
  match v with
  | vobj l => vobj l.stripUndef
  | _ => v

/-- Stage 3 guard (line 508): `(_.isFinite(criteria) || _.isString(criteria))
&& +criteria > 0`. -/
def numericConvertible (v : JsVal) : Bool :=
  (v.isNum || v.isStr) &&
    (match toNumber v with
     | some n => decide (0 < n)
     | none => false)

/-- Stage 5 guard (line 518): none of the operational keys
(`where`, `limit`, `skip`, `offset`, `order`) is truthy. -/
def noOperationalKeys (v : JsVal) : Bool :=
  !(objGet v "where").truthy && !(objGet v "limit").truthy &&
  !(objGet v "skip").truthy && !(objGet v "offset").truthy &&
  !(objGet v "order").truthy

/-- Stage 6 body (lines 526-528): `if (Math.pow(+x, 2) > 0) x = +x` —
replace a value by its numeric coercion exactly when that coercion is a
nonzero (finite, non-`NaN`) number. -/
def replaceNum (x : JsVal) : JsVal :=
  match toNumber x with
  | some n => if n ≠ 0 then vnum n else x
  | none => x

/-- Apply `replaceNum` to every value of a `where` object. -/
def JsEntries.mapReplaceNum : JsEntries → JsEntries
  | .nil => .nil
  | .cons k v t => .cons k (replaceNum v) t.mapReplaceNum

/-- Stage 6 (lines 524-529): rewrite the values inside `criteria.where`
when `where` is an object; `for ... in` over `null`, `undefined` or a
primitive performs no (observable) iteration. -/
def mapWhere (v : JsVal) : JsVal :=
  match objGet v "where" with
  | vobj wf => objSet v "where" (vobj wf.mapReplaceNum)
  | _ => v

/-- `_.str.words`: split on whitespace, dropping empty fragments. -/
def strWords (s : String) : List String :=
  (s.split Char.isWhitespace).filter (fun w => w ≠ "")

/-- Stage 7 (lines 532-550): sort normalization.  A truthy string sort is
split into `attr` and direction (defaulting to `asc`; note the JavaScript
`parts[1] = ...` assignment pads the array to length ≥ 2 before the length
test); an object sort passes through; any other truthy sort reaches the
final guard whose message reads the undeclared identifier `direction` and
therefore raises a ReferenceError. -/
def normalizeSort (v : JsVal) : Except RtErr JsVal :=
  let s := objGet v "sort"
  if !s.truthy then .ok v
  else
    match s with
    | vstr str =>
      let parts := strWords str
      let dir := match parts.get? 1 with
        | some d => d.toLower
        | none => "asc"
      if max parts.length 2 ≠ 2 ∨ (dir ≠ "asc" ∧ dir ≠ "desc") then
        .error (.thrown (vstr ("Invalid sort criteria :: " ++ str)))
      else
        .ok (objSet v "sort"
          (jobj [((parts.get? 0).getD "undefined",
                  vnum (if dir = "asc" then 1 else -1))]))
    | vobj _ => .ok v
    | _ => .error .referenceError

/-- `normalizeCriteria` (lines 497-553).  A returned string (the
"Invalid options/criteria" case) is a *successful* return in the source —
callers detect it with `_.isString`; a thrown exception is `.error`. -/
def normalizeCriteria (criteria : JsVal) : Except RtErr JsVal :=
  if !criteria.truthy then .ok (jobj [("where", vnull)])
  else
    let c1 := stripUndefined criteria
    let c2 := if numericConvertible c1 then
        jobj [("id", vnum ((toNumber c1).getD 0))]
      else c1
    if !c2.isObj then .ok (vstr ("Invalid options/criteria :: " ++ jsToString c2))
    else
      let c3 := if noOperationalKeys c2 then jobj [("where", c2)] else c2
      normalizeSort (mapWhere c3)

/-! ## Adapter facade — `findAll` and `find` (lines 169-186)

Callback invocations are recorded as argument lists; `cb()` is `[]`,
`cb(x)` is `[x]`, `cb(null, r)` is `[vnull, r]`.  The models array an
adapter hands to `findAll`'s callback is `Option (List JsVal)`:
`none` is the absent/`undefined` second argument. -/

/-- The part of an adapter visible to `find`/`findAll`: whether `find` is
implemented, and the `(err, models)` pair its implementation passes to the
callback. -/
structure FindAdapter where
  hasFind : Bool
  respErr : JsVal
  respModels : Option (List JsVal)
deriving Repr

/-- `findAll` (lines 169-174), parameterized by its callback continuation:
fail fast without `adapter.find`; report a string-valued normalization
result through the callback; otherwise delegate to `adapter.find`, which
invokes the callback with the adapter's response. -/
def findAllRun (adapter : FindAdapter) (criteria : JsVal)
    (cb : JsVal → Option (List JsVal) → Except RtErr (List (List JsVal))) :
    Except RtErr (List (List JsVal)) :=
  if !adapter.hasFind then cb (vstr "No find() method defined in adapter!") none
  else
    match normalizeCriteria criteria with
    | .error e => .error e
    | .ok c =>
      if c.isStr then cb c none
      else cb adapter.respErr adapter.respModels

/-- The anonymous callback `find` passes to `findAll` (lines 181-185).
Note the source never consults `err`: it reads `models.length`
unconditionally, so an adapter error (which leaves `models` undefined)
raises a TypeError instead of reaching `cb`. -/
def findCallback (collectionName : String) (err : JsVal)
    (models : Option (List JsVal)) : Except RtErr (List (List JsVal)) :=
  match models with
  | none => .error .typeError
  | some ms =>
    if ms.length < 1 then .ok [[]]
    else if ms.length > 1 then
      .ok [[vstr ("More than one " ++ collectionName ++ " returned!")]]
    else .ok [[vnull, ms.headD vundef]]

/-- `find` (lines 177-186): default absent criteria to `{ limit: 1 }`,
then run `findAll` with `findCallback` as the continuation. -/
def findRun (adapter : FindAdapter) (collectionName : String)
    (criteria : JsVal) : Except RtErr (List (List JsVal)) :=
  let criteria := if !criteria.truthy then jobj [("limit", vnum 1)] else criteria
  findAllRun adapter criteria (findCallback collectionName)

/-! ## Adapter facade — `create` (lines 153-166)

`create` mutates the caller's `values` object in place, so the embedding
threads an explicit heap of references: `values` is passed as a reference
and the timestamp writes go through it. -/

/-- The facade configuration keys `create`/`update` consult. -/
structure WlConfig where
  createdAt : Bool
  updatedAt : Bool
deriving DecidableEq, Repr

/-- A heap mapping references to values. -/
abbrev Heap := List (Nat × JsVal)

/-- Read a heap cell. -/
def heapGet (h : Heap) (r : Nat) : Option JsVal :=
  match h with
  | [] => none
  | (r', v) :: t => if r' = r then some v else heapGet t r

/-- Update a heap cell in place. -/
def heapUpdate (h : Heap) (r : Nat) (f : JsVal → JsVal) : Heap :=
  match h with
  | [] => []
  | (r', v) :: t => if r' = r then (r', f v) :: t else (r', v) :: heapUpdate t r f

/-- The observable outcome of `create`: the heap after the call, the
facade-level callback invocations, and the adapter call (collection name
and the *reference* handed over) if one was made. -/
structure CreateOutcome where
  heap : Heap
  cbCalls : List (List JsVal)
  adapterCall : Option (String × Nat)
deriving DecidableEq, Repr

/-- `create` (lines 153-166): fail fast without `adapter.create`; stamp
`createdAt` and `updatedAt` onto the caller's object (through its
reference) when the corresponding config flag is set; then call
`adapter.create` with the same reference.  `new Date()` is the ambient
`now`. -/
def createRun (config : WlConfig) (now : JsVal) (hasCreate : Bool)
    (collectionName : String) (h : Heap) (values : Nat) : CreateOutcome :=
  if !hasCreate then
    { heap := h, cbCalls := [[vstr "No create() method defined in adapter!"]],
      adapterCall := none }
  else
    let h1 := if config.createdAt then
        heapUpdate h values (fun v => objSet v "createdAt" now) else h
    let h2 := if config.updatedAt then
        heapUpdate h1 values (fun v => objSet v "updatedAt" now) else h1
    { heap := h2, cbCalls := [], adapterCall := some (collectionName, values) }

/-! ## Adapter facade — `alter` (lines 89-147) -/

/-- A property access `base[k]` that can throw: on a `null`/`undefined`
base it raises a TypeError, on another primitive it yields `undefined`. -/
def objGetThrow (base : JsVal) (k : String) : Except RtErr JsVal :=
  match base with
  | vnull => .error .typeError
  | vundef => .error .typeError
  | vobj l => .ok ((l.lookup k).getD vundef)
  | _ => .ok vundef

/-- The entry list of a value, for `_.each` iteration: primitives iterate
nothing (strings are outside attribute positions in this model). -/
def iterEntries (v : JsVal) : JsEntries :=
  match v with
  | vobj l => l
  | _ => .nil

/-- Loop 1 of the `alter` diff (lines 114-118): every attribute of the new
definition whose name is not truthy in `originalAttributes` is recorded in
`newAttributes`. -/
def alterLoop1 (original : JsVal) : JsEntries → JsEntries →
    Except RtErr JsEntries
  | acc, .nil => .ok acc
  | acc, .cons k a t => do
    let ov ← objGetThrow original k
    let acc := if !ov.truthy then acc.set k a else acc
    alterLoop1 original acc t

/-- Loop 2 of the `alter` diff (lines 121-131): an original attribute
that is no longer (truthily) present is deprecated; an original attribute
whose definition differs from the new one (`!_.isEqual`, which is also
true when the new definition is `undefined`) is deprecated *and* added
back to `newAttributes` with its original definition. -/
def alterLoop2 (attributes : JsVal) : JsEntries → JsEntries × JsEntries →
    Except RtErr (JsEntries × JsEntries)
  | .nil, st => .ok st
  | .cons k a t, (dep, nw) => do
    let av ← objGetThrow attributes k
    let dep := if !av.truthy then dep.set k a else dep
    let st := if av ≠ a then (dep.set k a, nw.set k a) else (dep, nw)
    alterLoop2 attributes t st

/-- Entries as a Lean list (the `_.keys` iteration order). -/
def JsEntries.toList : JsEntries → List (String × JsVal)
  | .nil => []
  | .cons k v t => (k, v) :: t.toList

/-- A call `alter` makes on the adapter. -/
inductive AdapterCall where
  | alterCall : AdapterCall
  | addAttribute : String → JsVal → AdapterCall
  | removeAttribute : String → JsVal → AdapterCall
deriving DecidableEq, Repr

/-- The part of an adapter visible to `alter`: which methods exist, the
`(err, originalAttributes)` pair `describe` passes to its callback, and
the error (or `undefined` for success) each `addAttribute` /
`removeAttribute` call reports. -/
structure AlterAdapter where
  hasAlter : Bool
  hasAddAttribute : Bool
  hasRemoveAttribute : Bool
  describeErr : JsVal
  describeAttrs : JsVal
  addAttributeErr : String → JsVal
  removeAttributeErr : String → JsVal

/-- First error reported among a phase's per-attribute results, in key
order (the order `async.forEach` would surface it for our sequentialized
model of the phase). -/
def firstErr (errOf : String → JsVal) : List (String × JsVal) → Option JsVal
  | [] => none
  | (k, _) :: t => if (errOf k).truthy then some (errOf k) else firstErr errOf t

/-- `alter` (lines 89-147).  With a native `adapter.alter` it delegates
(the adapter then owns the callback).  With `addAttribute`/`removeAttribute`
it describes the collection, diffs the attribute sets with the two loops,
applies the add phase and then the remove phase, and finally invokes `cb`.
Faithful failure behavior: a `describe` error runs `return done(err)` where
no `done` is in scope (ReferenceError, line 106); an add-phase error is
re-`throw`n (line 137); only a remove-phase error reaches `cb`. -/
def alterRun (ad : AlterAdapter) (attributes : JsVal) :
    Except RtErr (List AdapterCall × List (List JsVal)) :=
  if ad.hasAlter then .ok ([.alterCall], [])
  else if ad.hasAddAttribute && ad.hasRemoveAttribute then
    if ad.describeErr.truthy then .error .referenceError
    else do
      let newE ← alterLoop1 ad.describeAttrs .nil (iterEntries attributes)
      let (depE, newE) ← alterLoop2 attributes (iterEntries ad.describeAttrs)
        (.nil, newE)
      let addCalls := newE.toList.map (fun p => AdapterCall.addAttribute p.1 p.2)
      match firstErr ad.addAttributeErr newE.toList with
      | some e => .error (.thrown e)
      | none =>
        let removeCalls := depE.toList.map
          (fun p => AdapterCall.removeAttribute p.1 p.2)
        match firstErr ad.removeAttributeErr depE.toList with
        | some e => .ok (addCalls ++ removeCalls, [[e]])
        | none => .ok (addCalls ++ removeCalls, [[]])
  else .ok ([], [[]])

/-! ## Lock manager — `getNextLock` and `releaseLock` (lines 357-478) -/

/-- Line 7: `var MAX_INTEGER = 4294967295;` (used as the sorting sentinel). -/
def MAX_INTEGER : Nat := 4294967295

/-- A lock entry in the transaction collection: a v4 uuid, the transaction
name, and the adapter-assigned monotonic id. -/
structure Lock where
  uuid : String
  name : String
  id : Nat
deriving DecidableEq, Repr

/-- One `_.each` iteration of `getNextLock` (lines 465-476): ignore a lock
with a different transaction name or the current lock's own uuid;
otherwise adopt it when its id is strictly below the best id so far,
where the comparison is seeded with `MAX_INTEGER`. -/
def gnlStep (currentLock : Lock) (nextLock : Option Lock) (lock : Lock) :
    Option Lock :=
  if lock.name ≠ currentLock.name then nextLock
  else if lock.uuid = currentLock.uuid then nextLock
  else
    let minId : Nat := match nextLock with
      | some nl => nl.id
      | none => MAX_INTEGER
    if lock.id < minId then some lock else nextLock

/-- `getNextLock` (lines 463-478): fold the iteration over the scanned
locks, starting from no candidate. -/
def getNextLock (locks : List Lock) (currentLock : Lock) : Option Lock :=
  locks.foldl (gnlStep currentLock) none

/-- An observable event during `releaseLock`. -/
inductive RelEvent where
  | destroyed : String → RelEvent
  | afterUnlockCall : List JsVal → RelEvent
  | acquiredNext : Lock → RelEvent
deriving DecidableEq, Repr

/-- The destroy callback `afterLockReleased` (lines 389-400): first invoke
the forwarded `afterUnlock` (when one was supplied), and only then let the
next-in-line lock be acquired. -/
def releaseAfterDestroy (hasCb : Bool) (afterUnlockArgs : List JsVal)
    (nextInLine : Option Lock) : List RelEvent :=
  (if hasCb then [RelEvent.afterUnlockCall afterUnlockArgs] else []) ++
  (match nextInLine with
   | some nl => [RelEvent.acquiredNext nl]
   | none => [])

/-- `releaseLock` (lines 374-402), success path: scan all locks, compute
`nextInLine` from that snapshot, destroy the current entry by uuid, and
run the destroy callback.  Returns the transaction collection after the
destroy together with the ordered event list. -/
def releaseLockRun (collection : List Lock) (currentLock : Lock)
    (hasCb : Bool) (afterUnlockArgs : List JsVal) :
    List Lock × List RelEvent :=
  let locks := collection
  let nextInLine := getNextLock locks currentLock
  let collection2 := collection.filter (fun l => l.uuid ≠ currentLock.uuid)
  (collection2,
   RelEvent.destroyed currentLock.uuid ::
     releaseAfterDestroy hasCb afterUnlockArgs nextInLine)

/-! ## Lock manager — the `transaction` interleaving machine (lines 307-402)

Two concurrent `transaction(name, atomicLogic, afterUnlock)` calls with the
same name, on threads `A` and `B`, running over one shared transaction
collection.  The host is a single-threaded event loop: every adapter
operation is a suspension point, and each completion callback body runs
atomically.  The machine's pending-callback multiset holds exactly the
continuations the source schedules:

* `Create t`  — `transactionCollection.create` completes: the adapter
  atomically inserts the lock entry for `t` (assigning the next monotonic
  id) and `afterCreatingTransaction` issues the `findAll` scan
  (lines 319-325);
* `Scan t`    — the scan's `afterLookingUpTransactions` callback runs
  (lines 325-345): with the snapshot it computes the conflict (an entry
  with the same name, another uuid and a smaller id) and, if there is
  none, `acquireLock` invokes `atomicLogic(null, unlock)` (line 363);
* `Unlock t`  — the critical section invokes `unlock(...)` (each
  invocation of `atomicLogic` does so exactly once, the claim's
  hypothesis): `releaseLock` issues the release `findAll` (lines 363-379);
* `RelScan t` — the release scan callback runs (lines 379-387): it
  computes `nextInLine` from the fresh snapshot and issues the destroy;
* `DestroyOp t next` — the adapter atomically deletes `t`'s entry by uuid;
* `DestroyCb t next` — `afterLockReleased` runs (lines 389-400): invokes
  `afterUnlock` and then, if `nextInLine` exists, `acquireLock` invokes
  its `atomicLogic` (line 399).

Because each `atomicLogic` invocation calls `unlock` exactly once, the
number of pending `Unlock` callbacks for a thread equals its number of
invocations whose `unlock` has not yet run — i.e. its open critical
sections.  Ids are abstracted by their order: `firstCreated` records which
thread's entry was inserted first; a same-name conflict for `t`'s scan
exists exactly when the other thread's entry is present and was inserted
first.  The machine deliberately allows the source's re-invocation
anomaly (a promoted lock whose own scan has not yet run can have its
`atomicLogic` started twice), so the mutual-exclusion theorem covers it. -/

/-- The two concurrent callers (`false` = A, `true` = B). -/
abbrev Tid := Bool

/-- A state of the two-caller transaction machine: the pending-callback
multiset (`Bool` for the one-shot create/scan callbacks, counts for the
rest), the transaction collection (is each thread's entry present?), and
the insertion order of the two entries. -/
structure TxState where
  pCreateA : Bool
  pCreateB : Bool
  pScanA : Bool
  pScanB : Bool
  pUnlockA : Nat
  pUnlockB : Nat
  pRelA : Nat
  pRelB : Nat
  pDOpANone : Nat
  pDOpAB : Nat
  pDOpBNone : Nat
  pDOpBA : Nat
  pDCbANone : Nat
  pDCbAB : Nat
  pDCbBNone : Nat
  pDCbBA : Nat
  entryA : Bool
  entryB : Bool
  firstCreated : Option Tid
deriving DecidableEq, Repr

/-- Both callers have just called `transaction`: their
`transactionCollection.create` operations are in flight, nothing else. -/
def txInit : TxState :=
  { pCreateA := true, pCreateB := true, pScanA := false, pScanB := false,
    pUnlockA := 0, pUnlockB := 0, pRelA := 0, pRelB := 0,
    pDOpANone := 0, pDOpAB := 0, pDOpBNone := 0, pDOpBA := 0,
    pDCbANone := 0, pDCbAB := 0, pDCbBNone := 0, pDCbBA := 0,
    entryA := false, entryB := false, firstCreated := none }

/-- `transactionCollection.create` completes for `t` (lines 311-325): the
entry is inserted (recording arrival order) and the conflict scan is
issued. -/
def txCreate (s : TxState) (t : Tid) : TxState :=
  if t then
    { s with pCreateB := false, entryB := true, pScanB := true,
             firstCreated := s.firstCreated.getD t |> some }
  else
    { s with pCreateA := false, entryA := true, pScanA := true,
             firstCreated := s.firstCreated.getD t |> some }

/-- The conflict scan callback for `t` (lines 325-345): a conflict is an
entry with the same name, a different uuid and a smaller id — i.e. the
other thread's entry, present and inserted earlier.  Without a conflict,
`acquireLock` starts `t`'s `atomicLogic`, whose (unique) `unlock` call
becomes pending. -/
def txScan (s : TxState) (t : Tid) : TxState :=
  if t then
    let conflict := s.entryA && s.firstCreated == some false
    { s with pScanB := false,
             pUnlockB := s.pUnlockB + (if conflict then 0 else 1) }
  else
    let conflict := s.entryB && s.firstCreated == some true
    { s with pScanA := false,
             pUnlockA := s.pUnlockA + (if conflict then 0 else 1) }

/-- The critical section of `t` calls `unlock` (lines 363-366): the open
critical section closes and `releaseLock`'s scan is issued. -/
def txUnlock (s : TxState) (t : Tid) : TxState :=
  if t then { s with pUnlockB := s.pUnlockB - 1, pRelB := s.pRelB + 1 }
  else { s with pUnlockA := s.pUnlockA - 1, pRelA := s.pRelA + 1 }

/-- The release scan callback for `t` (lines 379-387): `nextInLine` is the
other thread's entry when present (`getNextLock` skips the current uuid),
and the destroy of `t`'s own entry is issued carrying that choice. -/
def txRelScan (s : TxState) (t : Tid) : TxState :=
  if t then
    if s.entryA then { s with pRelB := s.pRelB - 1, pDOpBA := s.pDOpBA + 1 }
    else { s with pRelB := s.pRelB - 1, pDOpBNone := s.pDOpBNone + 1 }
  else
    if s.entryB then { s with pRelA := s.pRelA - 1, pDOpAB := s.pDOpAB + 1 }
    else { s with pRelA := s.pRelA - 1, pDOpANone := s.pDOpANone + 1 }

/-- The adapter's destroy of `t`'s entry completes (line 387): the entry
leaves the collection and `afterLockReleased` becomes pending. -/
def txDestroyOp (s : TxState) (t : Tid) (promote : Bool) : TxState :=
  if t then
    if promote then
      { s with pDOpBA := s.pDOpBA - 1, entryB := false,
               pDCbBA := s.pDCbBA + 1 }
    else
      { s with pDOpBNone := s.pDOpBNone - 1, entryB := false,
               pDCbBNone := s.pDCbBNone + 1 }
  else
    if promote then
      { s with pDOpAB := s.pDOpAB - 1, entryA := false,
               pDCbAB := s.pDCbAB + 1 }
    else
      { s with pDOpANone := s.pDOpANone - 1, entryA := false,
               pDCbANone := s.pDCbANone + 1 }

/-- `afterLockReleased` runs for `t` (lines 389-400): `afterUnlock` fires,
then — when a `nextInLine` was found — `acquireLock(nextInLine)` starts the
other thread's `atomicLogic` (unconditionally: the source does not check
whether that logic already ran), opening a critical section for it. -/
def txDestroyCb (s : TxState) (t : Tid) (promote : Bool) : TxState :=
  if t then
    if promote then
      { s with pDCbBA := s.pDCbBA - 1, pUnlockA := s.pUnlockA + 1 }
    else { s with pDCbBNone := s.pDCbBNone - 1 }
  else
    if promote then
      { s with pDCbAB := s.pDCbAB - 1, pUnlockB := s.pUnlockB + 1 }
    else { s with pDCbANone := s.pDCbANone - 1 }

/-- All event-loop steps enabled in `s`: any pending callback may run next. -/
def txSuccs (s : TxState) : List TxState :=
  (if s.pCreateA then [txCreate s false] else []) ++
  (if s.pCreateB then [txCreate s true] else []) ++
  (if s.pScanA then [txScan s false] else []) ++
  (if s.pScanB then [txScan s true] else []) ++
  (if s.pUnlockA > 0 then [txUnlock s false] else []) ++
  (if s.pUnlockB > 0 then [txUnlock s true] else []) ++
  (if s.pRelA > 0 then [txRelScan s false] else []) ++
  (if s.pRelB > 0 then [txRelScan s true] else []) ++
  (if s.pDOpANone > 0 then [txDestroyOp s false false] else []) ++
  (if s.pDOpAB > 0 then [txDestroyOp s false true] else []) ++
  (if s.pDOpBNone > 0 then [txDestroyOp s true false] else []) ++
  (if s.pDOpBA > 0 then [txDestroyOp s true true] else []) ++
  (if s.pDCbANone > 0 then [txDestroyCb s false false] else []) ++
  (if s.pDCbAB > 0 then [txDestroyCb s false true] else []) ++
  (if s.pDCbBNone > 0 then [txDestroyCb s true false] else []) ++
  (if s.pDCbBA > 0 then [txDestroyCb s true true] else [])

/-- The states the two-caller machine can reach from the initial state. -/
inductive TxReachable : TxState → Prop
  | init : TxReachable txInit
  | step {s s' : TxState} : TxReachable s → s' ∈ txSuccs s → TxReachable s'

/-- Thread `t` is inside a critical section: its `atomicLogic` has been
invoked and the matching `unlock` has not yet run. -/
def inCS (s : TxState) (t : Tid) : Prop :=
  if t then 0 < s.pUnlockB else 0 < s.pUnlockA

/-! ### A fast-arithmetic mirror of the machine state

Reasoning about the 111-state reachability table is done through a
base-8 positional encoding of `TxState` into `Nat` (`decode_encode` below
proves the two representations agree on all bounded states); the table
itself is stored encoded, which is what makes the kernel-checked closure
computation cheap. -/

/-- Encode `firstCreated` as a base-8 digit. -/
def fcToNat : Option Bool → Nat
  | none => 0
  | some false => 1
  | some true => 2

/-- Decode the `firstCreated` digit. -/
def natToFc (n : Nat) : Option Bool :=
  if n = 1 then some false else if n = 2 then some true else none

/-- Base-8 positional encoding of a machine state, fields in declaration
order. -/
def encodeTx (s : TxState) : Nat :=

  s.pCreateA.toNat + 8 * (s.pCreateB.toNat + 8 * (s.pScanA.toNat + 8 * (s.pScanB.toNat + 8 * (s.pUnlockA + 8 * (s.pUnlockB + 8 * (s.pRelA + 8 * (s.pRelB + 8 * (s.pDOpANone + 8 * (s.pDOpAB + 8 * (s.pDOpBNone + 8 * (s.pDOpBA + 8 * (s.pDCbANone + 8 * (s.pDCbAB + 8 * (s.pDCbBNone + 8 * (s.pDCbBA + 8 * (s.entryA.toNat + 8 * (s.entryB.toNat + 8 * (fcToNat s.firstCreated))))))))))))))))))

/-- Base-8 positional decoding of a machine state. -/
def decodeTx (n : Nat) : TxState :=
  { pCreateA := (n % 8 == 1),
    pCreateB := (n / 8 % 8 == 1),
    pScanA := (n / 8 / 8 % 8 == 1),
    pScanB := (n / 8 / 8 / 8 % 8 == 1),
    pUnlockA := n / 8 / 8 / 8 / 8 % 8,
    pUnlockB := n / 8 / 8 / 8 / 8 / 8 % 8,
    pRelA := n / 8 / 8 / 8 / 8 / 8 / 8 % 8,
    pRelB := n / 8 / 8 / 8 / 8 / 8 / 8 / 8 % 8,
    pDOpANone := n / 8 / 8 / 8 / 8 / 8 / 8 / 8 / 8 % 8,
    pDOpAB := n / 8 / 8 / 8 / 8 / 8 / 8 / 8 / 8 / 8 % 8,
    pDOpBNone := n / 8 / 8 / 8 / 8 / 8 / 8 / 8 / 8 / 8 / 8 % 8,
    pDOpBA := n / 8 / 8 / 8 / 8 / 8 / 8 / 8 / 8 / 8 / 8 / 8 % 8,
    pDCbANone := n / 8 / 8 / 8 / 8 / 8 / 8 / 8 / 8 / 8 / 8 / 8 / 8 % 8,
    pDCbAB := n / 8 / 8 / 8 / 8 / 8 / 8 / 8 / 8 / 8 / 8 / 8 / 8 / 8 % 8,
    pDCbBNone := n / 8 / 8 / 8 / 8 / 8 / 8 / 8 / 8 / 8 / 8 / 8 / 8 / 8 / 8 % 8,
    pDCbBA := n / 8 / 8 / 8 / 8 / 8 / 8 / 8 / 8 / 8 / 8 / 8 / 8 / 8 / 8 / 8 % 8,
    entryA := (n / 8 / 8 / 8 / 8 / 8 / 8 / 8 / 8 / 8 / 8 / 8 / 8 / 8 / 8 / 8 / 8 % 8 == 1),
    entryB := (n / 8 / 8 / 8 / 8 / 8 / 8 / 8 / 8 / 8 / 8 / 8 / 8 / 8 / 8 / 8 / 8 / 8 % 8 == 1),
    firstCreated := natToFc (n / 8 / 8 / 8 / 8 / 8 / 8 / 8 / 8 / 8 / 8 / 8 / 8 / 8 / 8 / 8 / 8 / 8 / 8) }

/-- Every pending-callback count fits in a base-8 digit. -/
def txBounded (s : TxState) : Bool :=
  s.pUnlockA ≤ 7 && s.pUnlockB ≤ 7 && s.pRelA ≤ 7 && s.pRelB ≤ 7 &&
  s.pDOpANone ≤ 7 && s.pDOpAB ≤ 7 && s.pDOpBNone ≤ 7 && s.pDOpBA ≤ 7 &&
  s.pDCbANone ≤ 7 && s.pDCbAB ≤ 7 && s.pDCbBNone ≤ 7 && s.pDCbBA ≤ 7

/-- Every pending-callback count is below the digit bound even after one
more increment. -/
def txTight (s : TxState) : Bool :=
  s.pUnlockA ≤ 6 && s.pUnlockB ≤ 6 && s.pRelA ≤ 6 && s.pRelB ≤ 6 &&
  s.pDOpANone ≤ 6 && s.pDOpAB ≤ 6 && s.pDOpBNone ≤ 6 && s.pDOpBA ≤ 6 &&
  s.pDCbANone ≤ 6 && s.pDCbAB ≤ 6 && s.pDCbBNone ≤ 6 && s.pDCbBA ≤ 6

/-- The reachable states of the two-caller machine, `encodeTx`-encoded,
found by exhaustive exploration from `txInit`.  Its adequacy rests only on
the checks the theorems below verify: the table contains the encoded
initial state, is closed under the machine's steps, and every entry
decodes to a tight, mutually-exclusive state. -/
def txTableN : List Nat := [

  9,
  18295873486192712,
  38280596832649729,
  20547673299878464,
  18295873486196744,
  38562071809360448,
  38280596832681985,
  20547673299882496,
  20547673299877952,
  18295873486454792,
  38562071809360384,
  38562071809392704,
  38280596834746369,
  20547673299881984,
  20547673300140544,
  18295873502969864,
  38562071809392640,
  38562071811457088,
  38280597906391041,
  20547673300140032,
  20547673434096128,
  20547673316655616,
  18014467228958728,
  38562071811457024,
  38562080399294528,
  38562072883101760,
  36033195065475073,
  20547673434095616,
  20266748078981632,
  20547673316655104,
  20266267042644480,
  18014398509481992,
  38562080399294464,
  36345456367763520,
  38562072883101696,
  36314670042185792,
  36028797018963969,
  20266748078981120,
  20266748079013888,
  20266198323200512,
  20266267042643968,
  20266267042676736,
  20266198323167744,
  36345456367763456,
  36345456367767552,
  36310271995678784,
  36314670042185728,
  36314670042189824,
  36310271995674688,
  20266198323200000,
  20266748081078272,
  20266198323232768,
  20266198325264896,
  20266198323167232,
  20266267044741120,
  36310271995678720,
  36345456368025600,
  36310271995682816,
  36310271995936832,
  36310271995674624,
  36314670042447872,
  20266198325264384,
  20266749152722944,
  20266198325297152,
  20266199396909568,
  20266268116385792,
  36310271995936768,
  36345456384540672,
  36310271995940864,
  36310272012451904,
  36314670058962944,
  20266199396909056,
  18019346311806976,
  20266199396941824,
  20266198327361536,
  18018796555993600,
  18018865275469824,
  36310272012451840,
  36064050110529536,
  36310272012455936,
  36310271996198912,
  36028865738440768,
  36033263784951808,
  18018796555993088,
  18018796556025856,
  18014948265295872,
  20266199399006208,
  18014398509482496,
  18014467228958720,
  36028865738440704,
  36063981391052800,
  36028865738444800,
  36310272012713984,
  36028797018964032,
  36033195065475072,
  18014398509481984,
  18018796558090240,
  18014398509514752,
  20266200470650880,
  36028797018963968,
  36028797018968064,
  36028865738702848,
  36310272029229056,
  18018797629734912,
  18014398511579136,
  36028797019226112,
  36028865755217920,
  18023194602504192,
  18014399583223808,
  36028797035741184,
  36028934457917440
]


/-- No entry of the list has the value `undefined` (the shape of every
object `normalizeCriteria` can produce at the top level). -/
def JsEntries.noUndef : JsEntries → Bool
  | .nil => true
  | .cons _ v t => v != JsVal.vundef && t.noUndef

/-- Value-level form of `JsEntries.noUndef`: the top-level fields of an
object carry no `undefined` values (primitives satisfy it trivially). -/
def vNoUndef : JsVal → Bool
  | JsVal.vobj e => e.noUndef
  | _ => true

/-! # Theorems

Everything below proves properties of the embedded program; no further
definitions are introduced (witness inputs are written inline). -/

/-! ## C1 — mutual exclusion of same-name transactions -/

theorem peelMod (d R : Nat) (h : d < 8) : (d + 8 * R) % 8 = d := by omega

theorem peelDiv (d R : Nat) (h : d < 8) : (d + 8 * R) / 8 = R := by omega

theorem bToNatLt (b : Bool) : b.toNat < 8 := by cases b <;> decide

theorem fcToNatLt (o : Option Bool) : fcToNat o < 8 := by
  rcases o with _ | b
  · decide
  · cases b <;> decide

theorem beqToNatOne (b : Bool) : (b.toNat == 1) = b := by cases b <;> rfl

theorem natToFc_fcToNat (o : Option Bool) : natToFc (fcToNat o) = o := by
  rcases o with _ | b
  · rfl
  · cases b <;> rfl

theorem decode_encode (s : TxState) (h : txBounded s = true) :
    decodeTx (encodeTx s) = s := by
  obtain ⟨a1, a2, a3, a4, u1, u2, r1, r2, o1, o2, o3, o4, c1, c2, c3, c4, e1, e2, f⟩ := s
  simp only [txBounded, Bool.and_eq_true, decide_eq_true_eq] at h
  obtain ⟨⟨⟨⟨⟨⟨⟨⟨⟨⟨⟨h1, h2⟩, h3⟩, h4⟩, h5⟩, h6⟩, h7⟩, h8⟩, h9⟩, h10⟩, h11⟩, h12⟩ := h
  simp only [decodeTx, encodeTx]
  rw [peelMod _ _ (bToNatLt a1), peelDiv _ _ (bToNatLt a1),
      peelMod _ _ (bToNatLt a2), peelDiv _ _ (bToNatLt a2),
      peelMod _ _ (bToNatLt a3), peelDiv _ _ (bToNatLt a3),
      peelMod _ _ (bToNatLt a4), peelDiv _ _ (bToNatLt a4),
      peelMod _ _ (by omega : u1 < 8), peelDiv _ _ (by omega : u1 < 8),
      peelMod _ _ (by omega : u2 < 8), peelDiv _ _ (by omega : u2 < 8),
      peelMod _ _ (by omega : r1 < 8), peelDiv _ _ (by omega : r1 < 8),
      peelMod _ _ (by omega : r2 < 8), peelDiv _ _ (by omega : r2 < 8),
      peelMod _ _ (by omega : o1 < 8), peelDiv _ _ (by omega : o1 < 8),
      peelMod _ _ (by omega : o2 < 8), peelDiv _ _ (by omega : o2 < 8),
      peelMod _ _ (by omega : o3 < 8), peelDiv _ _ (by omega : o3 < 8),
      peelMod _ _ (by omega : o4 < 8), peelDiv _ _ (by omega : o4 < 8),
      peelMod _ _ (by omega : c1 < 8), peelDiv _ _ (by omega : c1 < 8),
      peelMod _ _ (by omega : c2 < 8), peelDiv _ _ (by omega : c2 < 8),
      peelMod _ _ (by omega : c3 < 8), peelDiv _ _ (by omega : c3 < 8),
      peelMod _ _ (by omega : c4 < 8), peelDiv _ _ (by omega : c4 < 8),
      peelMod _ _ (bToNatLt e1), peelDiv _ _ (bToNatLt e1),
      peelMod _ _ (bToNatLt e2), peelDiv _ _ (bToNatLt e2)]
  simp [beqToNatOne, natToFc_fcToNat]

theorem txSuccs_shape {s s' : TxState} (h : s' ∈ txSuccs s) :
    s' = txCreate s false ∨ s' = txCreate s true ∨
    s' = txScan s false ∨ s' = txScan s true ∨
    s' = txUnlock s false ∨ s' = txUnlock s true ∨
    s' = txRelScan s false ∨ s' = txRelScan s true ∨
    s' = txDestroyOp s false false ∨ s' = txDestroyOp s false true ∨
    s' = txDestroyOp s true false ∨ s' = txDestroyOp s true true ∨
    s' = txDestroyCb s false false ∨ s' = txDestroyCb s false true ∨
    s' = txDestroyCb s true false ∨ s' = txDestroyCb s true true := by
  simp only [txSuccs, List.mem_append] at h
  rcases h with h | h
  rotate_left
  · split at h <;> simp_all
  rcases h with h | h
  rotate_left
  · split at h <;> simp_all
  rcases h with h | h
  rotate_left
  · split at h <;> simp_all
  rcases h with h | h
  rotate_left
  · split at h <;> simp_all
  rcases h with h | h
  rotate_left
  · split at h <;> simp_all
  rcases h with h | h
  rotate_left
  · split at h <;> simp_all
  rcases h with h | h
  rotate_left
  · split at h <;> simp_all
  rcases h with h | h
  rotate_left
  · split at h <;> simp_all
  rcases h with h | h
  rotate_left
  · split at h <;> simp_all
  rcases h with h | h
  rotate_left
  · split at h <;> simp_all
  rcases h with h | h
  rotate_left
  · split at h <;> simp_all
  rcases h with h | h
  rotate_left
  · split at h <;> simp_all
  rcases h with h | h
  rotate_left
  · split at h <;> simp_all
  rcases h with h | h
  rotate_left
  · split at h <;> simp_all
  rcases h with h | h
  · split at h <;> simp_all
  · split at h <;> simp_all

theorem succs_bounded {s s' : TxState} (ht : txTight s = true)
    (h : s' ∈ txSuccs s) : txBounded s' = true := by
  simp only [txTight, Bool.and_eq_true, decide_eq_true_eq] at ht
  rcases txSuccs_shape h with
    rfl | rfl | rfl | rfl | rfl | rfl | rfl | rfl | rfl | rfl | rfl | rfl |
    rfl | rfl | rfl | rfl <;>
  · simp only [txCreate, txScan, txUnlock, txRelScan, txDestroyOp, txDestroyCb,
      txBounded, Bool.and_eq_true, decide_eq_true_eq]
    repeat' split
    all_goals simp_all
    all_goals omega

theorem txInit_bounded : txBounded txInit = true := rfl

theorem txTableN_init : txTableN.contains (encodeTx txInit) = true := rfl

theorem txTableN_tight : txTableN.all (fun n => txTight (decodeTx n)) = true := rfl

theorem txTableN_closed :
    txTableN.all (fun n =>
      ((txSuccs (decodeTx n)).map encodeTx).all (fun m => txTableN.contains m))
      = true := rfl

theorem txTableN_mutex :
    txTableN.all (fun n =>
      !(decide (0 < (decodeTx n).pUnlockA) && decide (0 < (decodeTx n).pUnlockB)))
      = true := rfl

theorem txReachable_invariant (s : TxState) (h : TxReachable s) :
    txBounded s = true ∧ encodeTx s ∈ txTableN := by
  induction h with
  | init =>
    refine ⟨txInit_bounded, ?_⟩
    simpa using txTableN_init
  | @step t t' _ hmem ih =>
    obtain ⟨hb, hmemN⟩ := ih
    have htight := List.all_eq_true.mp txTableN_tight _ hmemN
    rw [decode_encode t hb] at htight
    have hclosed := List.all_eq_true.mp txTableN_closed _ hmemN
    rw [decode_encode t hb] at hclosed
    refine ⟨succs_bounded htight hmem, ?_⟩
    have hm2 : encodeTx t' ∈ (txSuccs t).map encodeTx :=
      List.mem_map_of_mem _ hmem
    have := List.all_eq_true.mp hclosed _ hm2
    simpa using this

/-- C1: for any two concurrent calls to `transaction` with the same name,
each of whose `atomicLogic` invokes `unlock` exactly once, the critical
sections are mutually exclusive — in every reachable interleaving of the
two-caller machine, the two callers are never simultaneously inside an
invoked-but-not-yet-unlocked `atomicLogic`; equivalently, the second
caller's `atomicLogic` is not invoked until the first caller's `unlock`
has run. -/
theorem transaction_mutual_exclusion (s : TxState) (h : TxReachable s) :
    ¬(inCS s false ∧ inCS s true) := by
  obtain ⟨hb, hmemN⟩ := txReachable_invariant s h
  have hmx := List.all_eq_true.mp txTableN_mutex _ hmemN
  rw [decode_encode s hb] at hmx
  intro hc
  obtain ⟨h1, h2⟩ := hc
  simp [inCS] at h1 h2
  simp at hmx
  omega

/-- Witness for C1: the theorem applied at the (reachable) initial state. -/
theorem transaction_mutual_exclusion_wit :
    ¬(inCS txInit false ∧ inCS txInit true) :=
  transaction_mutual_exclusion txInit TxReachable.init

/-! ## C2, C3 — the facade error paths and the alter diff -/

/-- C2 is violated by the source (code bug): three facade error paths
never invoke the operation's callback.  (1) `find` with an adapter error:
the inner callback ignores `err` and reads `models.length` with `models`
undefined — a TypeError, so `cb` is never called.  (2) `alter` (on the
addAttribute/removeAttribute path) with a `describe` error runs
`return done(err)` but no `done` is in scope — a ReferenceError.
(3) `alter` with an `addAttribute` error re-`throw`s the error instead of
passing it to `cb`. -/
theorem facade_callback_not_invoked_on_errors :
    findRun ⟨true, vstr "boom", none⟩ "user"
        (jobj [("where", jobj [("id", vnum 1)])]) = .error .typeError ∧
    alterRun ⟨false, true, true, vstr "describe failed", vundef,
        fun _ => vundef, fun _ => vundef⟩
        (jobj [("a", vstr "string")]) = .error .referenceError ∧
    alterRun ⟨false, true, true, vnull, jobj [("a", vstr "string")],
        fun _ => vstr "add failed", fun _ => vundef⟩
        (jobj [("a", vstr "string"), ("c", vstr "bool")]) =
      .error (.thrown (vstr "add failed")) :=
  ⟨rfl, rfl, rfl⟩

/-- C3 is violated by the source (code bug): with current attributes
`{a: string, b: int}` and target `{a: string, c: bool}`, the second diff
loop has no guard separating deleted from changed attributes, so the
deleted `b` satisfies `!_.isEqual(undefined, int)` and is re-added to
`newAttributes` with its *old* definition.  The add phase therefore calls
`addAttribute` twice — `("c", bool)` and `("b", int)` — before the remove
phase calls `removeAttribute ("b", int)`; the claim's expected behavior
was a single `addAttribute("c", bool)`. -/
theorem alter_diff_readds_removed_attribute :
    alterRun ⟨false, true, true, vnull,
        jobj [("a", vstr "string"), ("b", vstr "int")],
        fun _ => vundef, fun _ => vundef⟩
        (jobj [("a", vstr "string"), ("c", vstr "bool")]) =
      .ok ([.addAttribute "c" (vstr "bool"), .addAttribute "b" (vstr "int"),
            .removeAttribute "b" (vstr "int")], [[]]) :=
  rfl

/-! ## C7 — `normalize({limit: 10})` -/

/-- Counterexample for C7: the source returns `{limit: 10}` *unchanged* —
no `where` key is added, so reading `where` on the result yields
`undefined`, not `null`, and the result differs from the claimed
`{where: null, limit: 10}` (in either key order). -/
theorem normalize_limit_no_where_added :
    normalizeCriteria (jobj [("limit", vnum 10)]) =
      .ok (jobj [("limit", vnum 10)]) ∧
    objGet (jobj [("limit", vnum 10)]) "where" = vundef ∧
    jobj [("limit", vnum 10)] ≠ jobj [("where", vnull), ("limit", vnum 10)] ∧
    jobj [("limit", vnum 10)] ≠ jobj [("limit", vnum 10), ("where", vnull)] := by
  refine ⟨rfl, rfl, ?_, ?_⟩ <;> decide

/-- C7 as amended: a mapping with a truthy operational key (`{limit: 10}`)
is preserved exactly as-is — it is not wrapped in a `where` clause, and no
`where` field is added (reading `where` on the result yields `undefined`). -/
theorem normalize_limit_preserved :
    normalizeCriteria (jobj [("limit", vnum 10)]) =
      .ok (jobj [("limit", vnum 10)]) ∧
    objGet (jobj [("limit", vnum 10)]) "where" = vundef :=
  ⟨rfl, rfl⟩

/-! ## C4 — idempotence of the normalizer (counterexample part) -/

/-- Counterexample for C4: idempotence fails exactly at the claimed
instance `c = null`.  `normalize(null) = {where: null}`, but renormalizing
`{where: null}` finds every operational key falsy (`where` is `null`) and
wraps, producing `{where: {where: null}}` — a different value. -/
theorem normalize_not_idempotent_at_null :
    normalizeCriteria vnull = .ok (jobj [("where", vnull)]) ∧
    normalizeCriteria (jobj [("where", vnull)]) =
      .ok (jobj [("where", jobj [("where", vnull)])]) ∧
    jobj [("where", jobj [("where", vnull)])] ≠ jobj [("where", vnull)] := by
  refine ⟨rfl, rfl, ?_⟩
  decide

/-! ## C9 — `create` stamps timestamps into the caller's object -/

/-- Heap lookup after an in-place update at the same reference. -/
theorem heapGet_heapUpdate_self (h : Heap) (r : Nat) (f : JsVal → JsVal)
    (v : JsVal) (hget : heapGet h r = some v) :
    heapGet (heapUpdate h r f) r = some (f v) := by
  induction h with
  | nil => simp [heapGet] at hget
  | cons p t ih =>
    by_cases hr : p.1 = r
    · simp [heapGet, heapUpdate, hr] at hget ⊢
      exact congrArg f hget
    · simp [heapGet, heapUpdate, hr] at hget ⊢
      exact ih hget

/-- C9: `create` writes `createdAt`/`updatedAt` (per config) into the very
object the caller passed — the heap cell named by the caller's reference
is updated in place, and the adapter is handed that same reference (no
copy), so after the call the caller observes the stamped fields on its own
object. -/
theorem create_mutates_values_in_place (config : WlConfig) (now : JsVal)
    (name : String) (h : Heap) (r : Nat) (v : JsVal)
    (hget : heapGet h r = some v) :
    (createRun config now true name h r).adapterCall = some (name, r) ∧
    heapGet (createRun config now true name h r).heap r = some
      (let v1 := if config.createdAt then objSet v "createdAt" now else v
       if config.updatedAt then objSet v1 "updatedAt" now else v1) := by
  obtain ⟨ca, ua⟩ := config
  cases ca <;> cases ua <;>
    simp [createRun, hget, heapGet_heapUpdate_self,
      heapGet_heapUpdate_self _ _ _ _ hget,
      heapGet_heapUpdate_self _ _ _ _ (heapGet_heapUpdate_self _ _ _ _ hget)]

/-- Witness for C9: with both timestamps enabled, the caller's object at
reference `0` carries `createdAt` and `updatedAt` after the call, and the
adapter received reference `0` itself. -/
theorem create_mutates_values_in_place_wit :
    (createRun ⟨true, true⟩ (vstr "2013-02-01") true "user"
        [(0, jobj [("name", vstr "b")])] 0).adapterCall = some ("user", 0) ∧
    heapGet (createRun ⟨true, true⟩ (vstr "2013-02-01") true "user"
        [(0, jobj [("name", vstr "b")])] 0).heap 0 = some
      (let v1 := if (true : Bool) then
          objSet (jobj [("name", vstr "b")]) "createdAt" (vstr "2013-02-01")
        else jobj [("name", vstr "b")]
       if (true : Bool) then objSet v1 "updatedAt" (vstr "2013-02-01") else v1) :=
  create_mutates_values_in_place ⟨true, true⟩ (vstr "2013-02-01") "user"
    [(0, jobj [("name", vstr "b")])] 0 (jobj [("name", vstr "b")]) rfl

/-! ## C6, C10 — `releaseLock` ordering and `getNextLock` -/

/-- Exhaustive description of one `gnlStep` iteration. -/
theorem gnlStep_cases (cur : Lock) (acc : Option Lock) (l : Lock) :
    (gnlStep cur acc l = acc ∧ (l.name ≠ cur.name ∨ l.uuid = cur.uuid)) ∨
    (l.name = cur.name ∧ l.uuid ≠ cur.uuid ∧
      ((gnlStep cur acc l = some l ∧ (∀ a, acc = some a → l.id < a.id) ∧
        (acc = none → l.id < MAX_INTEGER)) ∨
       (gnlStep cur acc l = acc ∧
        ((acc = none ∧ MAX_INTEGER ≤ l.id) ∨
         (∃ a, acc = some a ∧ a.id ≤ l.id))))) := by
  by_cases hn : l.name = cur.name
  · by_cases hu : l.uuid = cur.uuid
    · left
      constructor
      · simp [gnlStep, hn, hu]
      · exact Or.inr hu
    · right
      refine ⟨hn, hu, ?_⟩
      rcases acc with _ | a
      · by_cases hid : l.id < MAX_INTEGER
        · left
          refine ⟨by simp [gnlStep, hn, hu, hid], by simp, fun _ => hid⟩
        · right
          exact ⟨by simp [gnlStep, hn, hu, hid], Or.inl ⟨rfl, by omega⟩⟩
      · by_cases hid : l.id < a.id
        · left
          refine ⟨by simp [gnlStep, hn, hu, hid], ?_, by simp⟩
          intro b hb
          cases hb
          exact hid
        · right
          exact ⟨by simp [gnlStep, hn, hu, hid], Or.inr ⟨a, rfl, by omega⟩⟩
  · left
    constructor
    · simp [gnlStep, hn]
    · exact Or.inl hn

/-- The `getNextLock` fold invariant: a `some` result is the accumulator
or a candidate from the list (same name as the current lock, different
uuid); when the fold starts without an accumulator the result's id is
below `MAX_INTEGER`; and the result's id is minimal among the accumulator
and all candidates scanned. -/
theorem gnl_main (cur : Lock) (locks : List Lock) :
    ∀ (acc : Option Lock) (nl : Lock),
    (∀ a, acc = some a → a.id < MAX_INTEGER) →
    List.foldl (gnlStep cur) acc locks = some nl →
    (acc = some nl ∨ (nl ∈ locks ∧ nl.name = cur.name ∧ nl.uuid ≠ cur.uuid)) ∧
    nl.id < MAX_INTEGER ∧
    (∀ a, acc = some a → nl.id ≤ a.id) ∧
    (∀ l ∈ locks, l.name = cur.name → l.uuid ≠ cur.uuid → nl.id ≤ l.id) := by
  induction locks with
  | nil =>
    intro acc nl hacc h
    simp only [List.foldl_nil] at h
    refine ⟨Or.inl h, hacc _ h, ?_, by simp⟩
    intro a ha
    rw [h] at ha
    cases ha
    exact le_refl _
  | cons l t ih =>
    intro acc nl hacc h
    rw [List.foldl_cons] at h
    have hacc2 : ∀ a, gnlStep cur acc l = some a → a.id < MAX_INTEGER := by
      rcases gnlStep_cases cur acc l with ⟨he, _⟩ | ⟨hn, hu, ⟨he, hlt, hmx⟩ | ⟨he, _⟩⟩
      · rw [he]; exact hacc
      · rw [he]
        intro a ha
        cases ha
        rcases hc : acc with _ | b
        · exact hmx hc
        · exact lt_trans (hlt b hc) (hacc b hc)
      · rw [he]; exact hacc
    obtain ⟨hsrc, hmax, haccle, hrest⟩ := ih (gnlStep cur acc l) nl hacc2 h
    refine ⟨?_, hmax, ?_, ?_⟩
    · rcases gnlStep_cases cur acc l with ⟨he, _⟩ | ⟨hn, hu, ⟨he, _, _⟩ | ⟨he, _⟩⟩
      · rcases hsrc with hsrc | ⟨hmem, hr2⟩
        · left; rw [he] at hsrc; exact hsrc
        · exact Or.inr ⟨List.mem_cons_of_mem _ hmem, hr2⟩
      · rcases hsrc with hsrc | ⟨hmem, hr2⟩
        · rw [he] at hsrc
          cases hsrc
          exact Or.inr ⟨List.mem_cons_self _ _, hn, hu⟩
        · exact Or.inr ⟨List.mem_cons_of_mem _ hmem, hr2⟩
      · rcases hsrc with hsrc | ⟨hmem, hr2⟩
        · left; rw [he] at hsrc; exact hsrc
        · exact Or.inr ⟨List.mem_cons_of_mem _ hmem, hr2⟩
    · intro a ha
      rcases gnlStep_cases cur acc l with ⟨he, _⟩ | ⟨hn, hu, ⟨he, hlt, _⟩ | ⟨he, _⟩⟩
      · exact haccle a (by rw [he]; exact ha)
      · have h1 : nl.id ≤ l.id := haccle l (by rw [he])
        exact le_trans h1 (Nat.le_of_lt (hlt a ha))
      · exact haccle a (by rw [he]; exact ha)
    · intro x hx hxn hxu
      rcases List.mem_cons.mp hx with rfl | hx2
      · rcases gnlStep_cases cur acc x with ⟨_, hbad⟩ | ⟨_, _, ⟨he, _, _⟩ | ⟨he, hn2⟩⟩
        · rcases hbad with hbad | hbad
          · exact absurd hxn hbad
          · exact absurd hbad hxu
        · exact haccle x (by rw [he])
        · rcases hn2 with ⟨haccn, hge⟩ | ⟨a, ha, hge⟩
          · omega
          · have : nl.id ≤ a.id := haccle a (by rw [he]; exact ha)
            omega
      · exact hrest x hx2 hxn hxu


/-- A `some` accumulator can never be lost by the fold. -/
theorem gnl_some_stable (cur : Lock) (locks : List Lock) :
    ∀ acc : Option Lock, acc.isSome →
    (List.foldl (gnlStep cur) acc locks).isSome := by
  induction locks with
  | nil => intro acc h; simpa using h
  | cons l t ih =>
    intro acc h
    rw [List.foldl_cons]
    apply ih
    rcases gnlStep_cases cur acc l with ⟨he, _⟩ | ⟨_, _, ⟨he, _, _⟩ | ⟨he, _⟩⟩
    · rw [he]; exact h
    · rw [he]; rfl
    · rw [he]; exact h

/-- When some candidate has an id below `MAX_INTEGER`, the fold ends with
a candidate. -/
theorem gnl_complete (cur : Lock) (locks : List Lock) :
    ∀ acc : Option Lock,
    (∃ l ∈ locks, l.name = cur.name ∧ l.uuid ≠ cur.uuid ∧
      l.id < MAX_INTEGER) →
    (List.foldl (gnlStep cur) acc locks).isSome := by
  induction locks with
  | nil =>
    intro acc h
    simp at h
  | cons l t ih =>
    intro acc h
    rw [List.foldl_cons]
    rcases hacc : acc with _ | a
    · rcases h with ⟨x, hx, hxn, hxu, hxid⟩
      rcases List.mem_cons.mp hx with rfl | hx2
      · have : gnlStep cur none x = some x := by
          simp [gnlStep, hxn, hxu, hxid]
        rw [this]
        exact gnl_some_stable cur t _ rfl
      · rcases gnlStep_cases cur none l with ⟨he, _⟩ | ⟨_, _, ⟨he, _, _⟩ | ⟨he, _⟩⟩
        · rw [he]; exact ih none ⟨x, hx2, hxn, hxu, hxid⟩
        · rw [he]; exact gnl_some_stable cur t _ rfl
        · rw [he]; exact ih none ⟨x, hx2, hxn, hxu, hxid⟩
    · rcases gnlStep_cases cur (some a) l with ⟨he, _⟩ | ⟨_, _, ⟨he, _, _⟩ | ⟨he, _⟩⟩
      · rw [he]; exact gnl_some_stable cur t _ rfl
      · rw [he]; exact gnl_some_stable cur t _ rfl
      · rw [he]; exact gnl_some_stable cur t _ rfl

/-- C10: `getNextLock` returns, among the lock entries with the same name
as the current lock and a different uuid, the entry with the smallest id,
and only when that id is strictly below `MAX_INTEGER = 4294967295`; when a
candidate with a small-enough id exists it does return one, and when every
candidate's id is at least `MAX_INTEGER` it returns none — such a
candidate is never promoted in-process. -/
theorem getNextLock_spec (locks : List Lock) (cur : Lock) :
    (∀ nl, getNextLock locks cur = some nl →
      nl ∈ locks ∧ nl.name = cur.name ∧ nl.uuid ≠ cur.uuid ∧
      nl.id < MAX_INTEGER ∧
      (∀ l ∈ locks, l.name = cur.name → l.uuid ≠ cur.uuid → nl.id ≤ l.id)) ∧
    ((∃ l ∈ locks, l.name = cur.name ∧ l.uuid ≠ cur.uuid ∧
        l.id < MAX_INTEGER) →
      (getNextLock locks cur).isSome) ∧
    ((∀ l ∈ locks, l.name = cur.name → l.uuid ≠ cur.uuid →
        MAX_INTEGER ≤ l.id) →
      getNextLock locks cur = none) := by
  refine ⟨?_, gnl_complete cur locks none, ?_⟩
  · intro nl h
    obtain ⟨hsrc, hmax, _, hmin⟩ :=
      gnl_main cur locks none nl (fun a ha => Option.noConfusion ha) h
    rcases hsrc with hsrc | ⟨hmem, hn, hu⟩
    · exact Option.noConfusion hsrc
    · exact ⟨hmem, hn, hu, hmax, hmin⟩
  · intro hbig
    cases hr : getNextLock locks cur with
    | none => rfl
    | some nl =>
      obtain ⟨hsrc, hmax, _, _⟩ :=
        gnl_main cur locks none nl (fun a ha => Option.noConfusion ha) hr
      rcases hsrc with hsrc | ⟨hmem, hn, hu⟩
      · exact Option.noConfusion hsrc
      · have := hbig nl hmem hn hu
        omega

/-- Witness for C10: with candidates of ids 7 and 5, `getNextLock` returns
the id-5 entry (a same-name, different-uuid member of minimal id, below
`MAX_INTEGER`); and when the only candidate's id is `MAX_INTEGER`, it
returns none. -/
theorem getNextLock_spec_wit :
    ((⟨"u3", "X", 5⟩ : Lock) ∈
        [(⟨"u1", "X", 1⟩ : Lock), ⟨"u2", "X", 7⟩, ⟨"u3", "X", 5⟩] ∧
      (⟨"u3", "X", 5⟩ : Lock).name = (⟨"u1", "X", 1⟩ : Lock).name ∧
      (⟨"u3", "X", 5⟩ : Lock).uuid ≠ (⟨"u1", "X", 1⟩ : Lock).uuid ∧
      (⟨"u3", "X", 5⟩ : Lock).id < MAX_INTEGER ∧
      (∀ l ∈ [(⟨"u1", "X", 1⟩ : Lock), ⟨"u2", "X", 7⟩, ⟨"u3", "X", 5⟩],
        l.name = (⟨"u1", "X", 1⟩ : Lock).name →
        l.uuid ≠ (⟨"u1", "X", 1⟩ : Lock).uuid →
        (⟨"u3", "X", 5⟩ : Lock).id ≤ l.id)) ∧
    getNextLock [(⟨"u1", "X", 1⟩ : Lock), ⟨"u2", "X", 4294967295⟩]
        ⟨"u1", "X", 1⟩ = none :=
  ⟨(getNextLock_spec [⟨"u1", "X", 1⟩, ⟨"u2", "X", 7⟩, ⟨"u3", "X", 5⟩]
      ⟨"u1", "X", 1⟩).1 ⟨"u3", "X", 5⟩ rfl,
   (getNextLock_spec [⟨"u1", "X", 1⟩, ⟨"u2", "X", 4294967295⟩]
      ⟨"u1", "X", 1⟩).2.2 (by decide)⟩

/-- C6: on unlock of an acquired transaction, `releaseLock` proceeds in
order: the next-in-line entry is computed by `getNextLock` from the fresh
pre-deletion scan of the transaction collection, the current entry is
deleted by its uuid, `afterUnlock` is invoked with the arguments passed to
`unlock`, and only after `afterUnlock` is the next-in-line entry (if any)
granted acquisition; the next-in-line entry has the same name, a different
uuid, and the smallest id among such entries. -/
theorem releaseLock_order (collection : List Lock) (currentLock : Lock)
    (args : List JsVal) :
    releaseLockRun collection currentLock true args =
      (collection.filter (fun l => l.uuid ≠ currentLock.uuid),
       RelEvent.destroyed currentLock.uuid ::
         RelEvent.afterUnlockCall args ::
         (match getNextLock collection currentLock with
          | some nl => [RelEvent.acquiredNext nl]
          | none => [])) ∧
    (∀ nl, getNextLock collection currentLock = some nl →
      nl.name = currentLock.name ∧ nl.uuid ≠ currentLock.uuid ∧
      ∀ l ∈ collection, l.name = currentLock.name →
        l.uuid ≠ currentLock.uuid → nl.id ≤ l.id) := by
  constructor
  · rfl
  · intro nl h
    obtain ⟨hsrc, _, _, hmin⟩ :=
      gnl_main currentLock collection none nl (fun a ha => Option.noConfusion ha) h
    rcases hsrc with hsrc | ⟨_, hn, hu⟩
    · exact Option.noConfusion hsrc
    · exact ⟨hn, hu, hmin⟩

/-- Witness for C6: with a queued same-name entry of id 2, release scans,
destroys `u1`'s entry, fires `afterUnlock` with the forwarded argument,
and only then grants the id-2 entry. -/
theorem releaseLock_order_wit :
    releaseLockRun [⟨"u1", "X", 1⟩, ⟨"u2", "X", 2⟩] ⟨"u1", "X", 1⟩ true
        [vnum 7] =
      ([⟨"u2", "X", 2⟩],
       [RelEvent.destroyed "u1", RelEvent.afterUnlockCall [vnum 7],
        RelEvent.acquiredNext ⟨"u2", "X", 2⟩]) := by
  have h := (releaseLock_order [⟨"u1", "X", 1⟩, ⟨"u2", "X", 2⟩]
    ⟨"u1", "X", 1⟩ [vnum 7]).1
  simpa using h

/-! ## C5 — `find` cardinality -/

/-- C5: `find`, after a successful `findAll`, invokes its callback exactly
once — with no value when zero records matched, with `(null, record)` when
exactly one matched, and with the error string
`"More than one <name> returned!"` when more than one matched; it never
silently returns one record out of many. -/
theorem find_cardinality (adapter : FindAdapter) (name : String)
    (criteria c : JsVal) (ms : List JsVal)
    (hfind : adapter.hasFind = true)
    (hresp : adapter.respErr = vnull) (hms : adapter.respModels = some ms)
    (htr : criteria.truthy = true)
    (hnorm : normalizeCriteria criteria = .ok c) (hcs : c.isStr = false) :
    (ms = [] → findRun adapter name criteria = .ok [[]]) ∧
    (∀ r, ms = [r] → findRun adapter name criteria = .ok [[vnull, r]]) ∧
    (2 ≤ ms.length →
      findRun adapter name criteria =
        .ok [[vstr ("More than one " ++ name ++ " returned!")]]) := by
  have hbase : findRun adapter name criteria = findCallback name vnull (some ms) := by
    simp [findRun, findAllRun, htr, hfind, hnorm, hcs, hresp, hms]
  refine ⟨?_, ?_, ?_⟩
  · rintro rfl
    simp [hbase, findCallback]
  · rintro r rfl
    simp [hbase, findCallback]
  · intro hlen
    rw [hbase]
    simp only [findCallback]
    rw [if_neg (by omega), if_pos (by omega)]

/-- Witness for C5: two records match, so `find` reports the
more-than-one error through a single callback invocation. -/
theorem find_cardinality_wit :
    findRun ⟨true, vnull, some [jobj [("a", vnum 1)], jobj [("a", vnum 2)]]⟩
      "user" (jobj [("where", jobj [("a", vnum 1)])]) =
      .ok [[vstr "More than one user returned!"]] :=
  (find_cardinality ⟨true, vnull, some [jobj [("a", vnum 1)], jobj [("a", vnum 2)]]⟩
    "user" (jobj [("where", jobj [("a", vnum 1)])])
    (jobj [("where", jobj [("a", vnum 1)])])
    [jobj [("a", vnum 1)], jobj [("a", vnum 2)]]
    rfl rfl rfl rfl rfl rfl).2.2 (by decide)

/-! ## C4, C8 — normalizer idempotence and the where-value rewrite -/
/-- Structural induction for `JsEntries` (the mutual inductive's generated
eliminator has multiple motives, so recursion over entry lists goes
through this principle). -/
theorem JsEntries.inductionOn (P : JsEntries → Prop) (nil : P .nil)
    (cons : ∀ k v t, P t → P (.cons k v t)) : ∀ l, P l
  | .nil => nil
  | .cons k v t => cons k v t (JsEntries.inductionOn P nil cons t)

theorem lookup_set_self (l : JsEntries) (k : String) (x : JsVal) :
    (l.set k x).lookup k = some x := by
  induction l using JsEntries.inductionOn with
  | nil => simp [JsEntries.set, JsEntries.lookup]
  | cons k2 v t ih =>
    by_cases hk : k2 = k
    · simp [JsEntries.set, JsEntries.lookup, hk]
    · simp [JsEntries.set, JsEntries.lookup, hk, ih]

theorem lookup_set_ne (l : JsEntries) (k2 k : String) (x : JsVal)
    (h : k2 ≠ k) : (l.set k2 x).lookup k = l.lookup k := by
  induction l using JsEntries.inductionOn with
  | nil => simp [JsEntries.set, JsEntries.lookup, h]
  | cons k3 v t ih =>
    by_cases hk : k3 = k2
    · subst hk
      simp [JsEntries.set, JsEntries.lookup, h]
    · simp [JsEntries.set, JsEntries.lookup, hk, ih]

theorem set_lookup_self (l : JsEntries) (k : String) (x : JsVal)
    (h : l.lookup k = some x) : l.set k x = l := by
  induction l using JsEntries.inductionOn with
  | nil => simp [JsEntries.lookup] at h
  | cons k2 v t ih =>
    by_cases hk : k2 = k
    · subst hk
      simp [JsEntries.lookup] at h
      simp [JsEntries.set, h]
    · simp [JsEntries.lookup, hk] at h
      simp [JsEntries.set, hk, ih h]

theorem set_set (l : JsEntries) (k : String) (x y : JsVal) :
    (l.set k x).set k y = l.set k y := by
  induction l using JsEntries.inductionOn with
  | nil => simp [JsEntries.set]
  | cons k2 v t ih =>
    by_cases hk : k2 = k
    · simp [JsEntries.set, hk]
    · simp [JsEntries.set, hk, ih]

theorem lookup_stripUndef (l : JsEntries) (k : String) (x : JsVal)
    (h : l.lookup k = some x) (hx : x ≠ vundef) :
    l.stripUndef.lookup k = some x := by
  induction l using JsEntries.inductionOn with
  | nil => simp [JsEntries.lookup] at h
  | cons k2 v t ih =>
    by_cases hk : k2 = k
    · subst hk
      simp [JsEntries.lookup] at h
      subst h
      simp [JsEntries.stripUndef, hx, JsEntries.lookup]
    · simp [JsEntries.lookup, hk] at h
      by_cases hv : v = vundef
      · simp [JsEntries.stripUndef, hv, ih h]
      · simp [JsEntries.stripUndef, hv, JsEntries.lookup, hk, ih h]

theorem noUndef_stripUndef (l : JsEntries) : l.stripUndef.noUndef = true := by
  induction l using JsEntries.inductionOn with
  | nil => rfl
  | cons k v t ih =>
    by_cases hv : v = vundef
    · simp [JsEntries.stripUndef, hv, ih]
    · simp [JsEntries.stripUndef, hv, JsEntries.noUndef, ih]

theorem noUndef_fix (l : JsEntries) (h : l.noUndef = true) :
    l.stripUndef = l := by
  induction l using JsEntries.inductionOn with
  | nil => rfl
  | cons k v t ih =>
    simp [JsEntries.noUndef] at h
    simp [JsEntries.stripUndef, h.1, ih h.2]

theorem noUndef_set (l : JsEntries) (k : String) (x : JsVal)
    (h : l.noUndef = true) (hx : x ≠ vundef) : (l.set k x).noUndef = true := by
  induction l using JsEntries.inductionOn with
  | nil => simp [JsEntries.set, JsEntries.noUndef, hx]
  | cons k2 v t ih =>
    simp [JsEntries.noUndef] at h
    by_cases hk : k2 = k
    · simp [JsEntries.set, hk, JsEntries.noUndef, hx, h.2]
    · simp [JsEntries.set, hk, JsEntries.noUndef, h.1, ih h.2]

theorem replaceNum_idem (x : JsVal) : replaceNum (replaceNum x) = replaceNum x := by
  unfold replaceNum
  cases hn : toNumber x with
  | none => simp [hn]
  | some n =>
    by_cases h0 : n = 0
    · simp [hn, h0]
    · simp [hn, h0, toNumber]

theorem mapReplaceNum_idem (l : JsEntries) :
    l.mapReplaceNum.mapReplaceNum = l.mapReplaceNum := by
  induction l using JsEntries.inductionOn with
  | nil => rfl
  | cons k v t ih => simp [JsEntries.mapReplaceNum, replaceNum_idem, ih]

/-! ## Structural lemmas about the normalizer's stages -/

theorem objGet_objSet_ne (u : JsVal) (k2 k : String) (x : JsVal)
    (h : k2 ≠ k) : objGet (objSet u k2 x) k = objGet u k := by
  cases u <;> try rfl
  simp [objGet, objSet, lookup_set_ne _ _ _ _ h]

theorem objGet_objSet_self (u : JsVal) (k : String) (x : JsVal)
    (h : u.isObj = true) : objGet (objSet u k x) k = x := by
  cases u <;> simp [JsVal.isObj] at h <;> simp [objGet, objSet, lookup_set_self]

theorem objGet_ne_undef_isObj (u : JsVal) (k : String)
    (h : objGet u k ≠ vundef) : u.isObj = true := by
  cases u <;> simp [objGet] at h <;> rfl

theorem strip_vNoUndef (u : JsVal) : vNoUndef (stripUndefined u) = true := by
  cases u <;> simp [stripUndefined, vNoUndef, noUndef_stripUndef]

theorem vNoUndef_strip_fix (u : JsVal) (h : vNoUndef u = true) :
    stripUndefined u = u := by
  cases u <;> simp [stripUndefined, vNoUndef] at h ⊢
  exact noUndef_fix _ h

theorem vNoUndef_objSet (u : JsVal) (k : String) (x : JsVal)
    (h : vNoUndef u = true) (hx : x ≠ vundef) :
    vNoUndef (objSet u k x) = true := by
  cases u <;> simp [objSet, vNoUndef] at h ⊢
  exact noUndef_set _ _ _ h hx

theorem mapWhere_vNoUndef (u : JsVal) (h : vNoUndef u = true) :
    vNoUndef (mapWhere u) = true := by
  unfold mapWhere
  cases hw : objGet u "where" <;> first
    | exact h
    | exact vNoUndef_objSet _ _ _ h (by simp)

theorem mapWhere_post (u : JsVal) :
    match objGet (mapWhere u) "where" with
    | vobj wf => wf.mapReplaceNum = wf
    | _ => True := by
  unfold mapWhere
  cases hw : objGet u "where" <;> try simp [hw]
  rename_i wf
  have hobj : u.isObj = true := objGet_ne_undef_isObj u "where" (by simp [hw])
  rw [objGet_objSet_self _ _ _ hobj]
  simp [mapReplaceNum_idem]

theorem mapWhere_fix (u : JsVal)
    (h : match objGet u "where" with
         | vobj wf => wf.mapReplaceNum = wf
         | _ => True) : mapWhere u = u := by
  cases u with
  | vobj e =>
    cases hl : e.lookup "where" with
    | none => simp [mapWhere, objGet, hl]
    | some y =>
      cases y with
      | vobj wf =>
        simp only [objGet, hl, Option.getD_some] at h
        simp only [mapWhere, objGet, hl, Option.getD_some, h, objSet]
        exact congrArg JsVal.vobj (set_lookup_self _ _ _ hl)
      | vnull => simp [mapWhere, objGet, hl]
      | vundef => simp [mapWhere, objGet, hl]
      | vbool b => simp [mapWhere, objGet, hl]
      | vnum n => simp [mapWhere, objGet, hl]
      | vstr s => simp [mapWhere, objGet, hl]
  | vnull => rfl
  | vundef => rfl
  | vbool b => rfl
  | vnum n => rfl
  | vstr s => rfl

theorem normSort_inv (u v : JsVal) (h : normalizeSort u = .ok v) :
    v = u ∨ (u.isObj = true ∧ ∃ a d, v = objSet u "sort" (jobj [(a, vnum d)])) := by
  cases hs : objGet u "sort" with
  | vnull => simp [normalizeSort, hs, JsVal.truthy] at h; exact Or.inl h.symm
  | vundef => simp [normalizeSort, hs, JsVal.truthy] at h; exact Or.inl h.symm
  | vbool b =>
    cases b
    · simp [normalizeSort, hs, JsVal.truthy] at h; exact Or.inl h.symm
    · simp [normalizeSort, hs, JsVal.truthy] at h
  | vnum n =>
    by_cases h0 : n = 0
    · simp [normalizeSort, hs, JsVal.truthy, h0] at h; exact Or.inl h.symm
    · simp [normalizeSort, hs, JsVal.truthy, h0] at h
  | vobj e =>
    simp [normalizeSort, hs, JsVal.truthy] at h; exact Or.inl h.symm
  | vstr s =>
    by_cases h0 : s = ""
    · simp [normalizeSort, hs, JsVal.truthy, h0] at h; exact Or.inl h.symm
    · right
      refine ⟨objGet_ne_undef_isObj u "sort" (by simp [hs]), ?_⟩
      simp only [normalizeSort, hs, JsVal.truthy] at h
      rw [if_neg (by simp [h0])] at h
      split at h
      · simp at h
      · refine ⟨((strWords s).get? 0).getD "undefined",
          (if (match (strWords s).get? 1 with
               | some d2 => d2.toLower
               | none => "asc") = "asc" then 1 else -1), ?_⟩
        simp only [Except.ok.injEq] at h
        exact h.symm

theorem normSort_where (u v : JsVal) (h : normalizeSort u = .ok v) :
    objGet v "where" = objGet u "where" := by
  rcases normSort_inv u v h with rfl | ⟨hobj, a, d, rfl⟩
  · rfl
  · exact objGet_objSet_ne _ _ _ _ (by decide)

theorem normSort_vNoUndef (u v : JsVal) (h : normalizeSort u = .ok v)
    (hu : vNoUndef u = true) : vNoUndef v = true := by
  rcases normSort_inv u v h with rfl | ⟨hobj, a, d, rfl⟩
  · exact hu
  · exact vNoUndef_objSet _ _ _ hu (by simp [jobj])

theorem normSort_fix (u v : JsVal) (h : normalizeSort u = .ok v) :
    normalizeSort v = .ok v := by
  rcases normSort_inv u v h with rfl | ⟨hobj, a, d, rfl⟩
  · exact h
  · have hgs : objGet (objSet u "sort" (jobj [(a, vnum d)])) "sort" =
        jobj [(a, vnum d)] := objGet_objSet_self _ _ _ hobj
    simp only [jobj, entriesOf] at hgs
    simp [normalizeSort, hgs, jobj, entriesOf, JsVal.truthy]

theorem isObj_ne_undef (u : JsVal) (h : u.isObj = true) : u ≠ vundef := by
  cases u <;> simp [JsVal.isObj] at h <;> simp

theorem normalizeCriteria_truthy (c : JsVal) (htr : c.truthy = true) :
    normalizeCriteria c =
      (let c1 := stripUndefined c
       let c2 := if numericConvertible c1 then
           jobj [("id", vnum ((toNumber c1).getD 0))]
         else c1
       if !c2.isObj then
         .ok (vstr ("Invalid options/criteria :: " ++ jsToString c2))
       else
         let c3 := if noOperationalKeys c2 then jobj [("where", c2)] else c2
         normalizeSort (mapWhere c3)) := by
  simp [normalizeCriteria, htr]

/-- Shape of every object-valued result of `normalizeCriteria`: no
top-level `undefined` values, a `where` mapping already fixed by the
numeric rewrite, and a sort field the sort normalizer accepts unchanged. -/
theorem normalize_output_facts (c v : JsVal)
    (hnorm : normalizeCriteria c = .ok v) (hobj : v.isObj = true) :
    vNoUndef v = true ∧
    (match objGet v "where" with
     | vobj wf => wf.mapReplaceNum = wf
     | _ => True) ∧
    normalizeSort v = .ok v := by
  by_cases htr : c.truthy = true
  · rw [normalizeCriteria_truthy c htr] at hnorm
    simp only [] at hnorm
    generalize hc2 : (if numericConvertible (stripUndefined c) then
        jobj [("id", vnum ((toNumber (stripUndefined c)).getD 0))]
      else stripUndefined c) = c2v at hnorm
    have hnou2 : vNoUndef c2v = true := by
      rw [← hc2]
      split
      · simp [vNoUndef, jobj, entriesOf, JsEntries.noUndef]
      · exact strip_vNoUndef c
    by_cases hio : c2v.isObj = true
    · rw [hio] at hnorm
      simp only [Bool.not_true, Bool.false_eq_true, if_false] at hnorm
      generalize hc3 : (if noOperationalKeys c2v then
          jobj [("where", c2v)] else c2v) = c3v at hnorm
      have hnou3 : vNoUndef c3v = true := by
        rw [← hc3]
        split
        · simp [vNoUndef, jobj, entriesOf, JsEntries.noUndef]
          exact isObj_ne_undef _ hio
        · exact hnou2
      refine ⟨normSort_vNoUndef _ _ hnorm (mapWhere_vNoUndef _ hnou3), ?_,
        normSort_fix _ _ hnorm⟩
      rw [normSort_where _ _ hnorm]
      exact mapWhere_post _
    · simp only [Bool.not_eq_true] at hio
      rw [hio] at hnorm
      simp only [Bool.not_false, if_true, Except.ok.injEq] at hnorm
      rw [← hnorm] at hobj
      simp [JsVal.isObj] at hobj
  · simp only [Bool.not_eq_true] at htr
    simp [normalizeCriteria, htr] at hnorm
    rw [← hnorm]
    refine ⟨rfl, ?_, rfl⟩
    simp [objGet, jobj, entriesOf, JsEntries.lookup]

/-- C4 as amended: `normalizeCriteria` is idempotent on every input on
which it succeeds with an object result that has at least one truthy
operational key; the claim's `c = null` instance is exactly where
idempotence fails (see the counterexample), because `{where: null}` has
every operational key falsy and is wrapped a second time. -/
theorem normalize_idempotent_on_operational (c v : JsVal)
    (hnorm : normalizeCriteria c = .ok v)
    (hobj : v.isObj = true)
    (hop : noOperationalKeys v = false) :
    normalizeCriteria v = .ok v := by
  obtain ⟨hnu, hwshape, hsort⟩ := normalize_output_facts c v hnorm hobj
  have htr : v.truthy = true := by
    cases v <;> simp [JsVal.isObj] at hobj
    rfl
  have hnc : numericConvertible v = false := by
    cases v <;> simp [JsVal.isObj] at hobj
    rfl
  rw [normalizeCriteria_truthy v htr]
  simp only [vNoUndef_strip_fix v hnu, hnc, Bool.false_eq_true, if_false,
    hobj, Bool.not_true, hop, mapWhere_fix v hwshape]
  exact hsort

/-- Witness for the amended C4: `{age: 7}` normalizes to
`{where: {age: 7}}`, which renormalizes to itself. -/
theorem normalize_idempotent_on_operational_wit :
    normalizeCriteria (jobj [("where", jobj [("age", vnum 7)])]) =
      .ok (jobj [("where", jobj [("age", vnum 7)])]) :=
  normalize_idempotent_on_operational (jobj [("age", vnum 7)])
    (jobj [("where", jobj [("age", vnum 7)])]) (by rfl) (by rfl) (by rfl)

/-- C8: for a criterion with a `where` mapping, `normalizeCriteria`
rewrites exactly the `where` values whose numeric coercion is a nonzero
finite number, replacing them with that parsed number and leaving every
other value unchanged (the result's `where` is the entry-wise
`replaceNum` image of the input's `where`). -/
theorem normalize_where_numeric_rewrite (fields wf : JsEntries) (v : JsVal)
    (hwhere : fields.lookup "where" = some (vobj wf))
    (hnorm : normalizeCriteria (vobj fields) = .ok v) :
    objGet v "where" = vobj wf.mapReplaceNum ∧
    (∀ x n, toNumber x = some n → n ≠ 0 → replaceNum x = vnum n) ∧
    (∀ x, toNumber x = none → replaceNum x = x) ∧
    (∀ x, toNumber x = some 0 → replaceNum x = x) := by
  refine ⟨?_, ?_, ?_, ?_⟩
  · have htr : (vobj fields).truthy = true := rfl
    rw [normalizeCriteria_truthy _ htr] at hnorm
    simp only [stripUndefined] at hnorm
    have hw1 : fields.stripUndef.lookup "where" = some (vobj wf) :=
      lookup_stripUndef _ _ _ hwhere (by simp)
    have hnc : numericConvertible (vobj fields.stripUndef) = false := rfl
    simp only [hnc, Bool.false_eq_true, if_false] at hnorm
    simp only [JsVal.isObj, Bool.not_true, Bool.false_eq_true, if_false]
      at hnorm
    have hnop : noOperationalKeys (vobj fields.stripUndef) = false := by
      simp [noOperationalKeys, objGet, hw1, JsVal.truthy]
    simp only [hnop, Bool.false_eq_true, if_false] at hnorm
    have hmw : mapWhere (vobj fields.stripUndef) =
        vobj (fields.stripUndef.set "where" (vobj wf.mapReplaceNum)) := by
      simp [mapWhere, objGet, hw1, objSet]
    rw [hmw] at hnorm
    rw [normSort_where _ _ hnorm]
    simp [objGet, lookup_set_self]
  · intro x n hx h0
    simp [replaceNum, hx, h0]
  · intro x hx
    simp [replaceNum, hx]
  · intro x hx
    simp [replaceNum, hx]

/-- Witness for C8: in `{where: {id: 5, flag: true, note: null}}`, `id`
stays `5`, `flag` (which coerces to the nonzero number 1) becomes `1`, and
`note` (which coerces to 0) is left unchanged. -/
theorem normalize_where_numeric_rewrite_wit :
    objGet (jobj [("where",
        jobj [("id", vnum 5), ("flag", vnum 1), ("note", vnull)])]) "where" =
      vobj (entriesOf [("id", vnum 5), ("flag", vbool true),
        ("note", vnull)]).mapReplaceNum :=
  (normalize_where_numeric_rewrite
    (entriesOf [("where", jobj [("id", vnum 5), ("flag", vbool true),
      ("note", vnull)])])
    (entriesOf [("id", vnum 5), ("flag", vbool true), ("note", vnull)])
    (jobj [("where", jobj [("id", vnum 5), ("flag", vnum 1), ("note", vnull)])])
    (by rfl) (by rfl)).1
